import Mathlib

/-!
Verification of the permanence-date core of the CRM application (src/app.py):
the date parser `parse_yyyy_mm_dd`, the month arithmetic `add_months`, the
resolver `compute_permanence_end`, the legacy/current end-date reconciliation
`get_end_date_from_client_row`, the `days_until` computation, the calendar
query, and the end-date column backfill performed by `init_db`,
`new_client` and `update_client`.

Conventions of the embedding:
* Python `datetime.date` values are modelled by `PyDate`; construction by
  `mkDate`, which returns `none` exactly where `date(y, m, d)` raises
  `ValueError` (components out of range, years outside 1..9999).
* Functions that can let an exception escape return `Option`; `none` models
  the exception propagating out of the function.
* Strings are restricted to ASCII in the places where Python is
  Unicode-aware (`str.strip`, `\d` in the strptime regexes, `int`); none of
  the verified properties depend on non-ASCII behaviour.
* The ambient value of `date.today()` is passed explicitly as a `today`
  argument to the models of the functions that read the wall clock
  (`days_until`, the calendar view); the source reads it internally.
-/

namespace CRM

open scoped List

/-- Gregorian leap-year test, as in Python's `datetime` module. -/
def isLeap (y : Nat) : Bool := y % 4 == 0 && (y % 100 != 0 || y % 400 == 0)

/-- Number of days in month `m` of year `y` (Python `_days_in_month`). -/
def daysInMonth (y m : Nat) : Nat :=
  if m = 2 then (if isLeap y then 29 else 28)
  else if m = 4 ∨ m = 6 ∨ m = 9 ∨ m = 11 then 30
  else 31

/-- A calendar date as carried by Python's `datetime.date` (year, month, day). -/
structure PyDate where
  year : Nat
  month : Nat
  day : Nat
deriving DecidableEq, Repr

/-- Range check performed by the `date(year, month, day)` constructor:
`MINYEAR = 1`, `MAXYEAR = 9999`, months 1..12, days 1..days-in-month. -/
def isValidDate (y m d : Nat) : Bool :=
  decide (1 ≤ y) && decide (y ≤ 9999) && decide (1 ≤ m) && decide (m ≤ 12) &&
  decide (1 ≤ d) && decide (d ≤ daysInMonth y m)

/-- Model of the `date(y, m, d)` constructor; `none` models `ValueError`. -/
def mkDate (y m d : Nat) : Option PyDate :=
  if isValidDate y m d then some ⟨y, m, d⟩ else none

/-- The `date` constructor applied to possibly negative integer arguments. -/
def mkDateI (y m d : Int) : Option PyDate :=
  if 0 ≤ y ∧ 0 ≤ m ∧ 0 ≤ d then mkDate y.toNat m.toNat d.toNat else none

/-- Python date comparison `a <= b` (lexicographic on year, month, day). -/
def dateLe (a b : PyDate) : Bool :=
  decide (a.year < b.year) ||
  (decide (a.year = b.year) &&
    (decide (a.month < b.month) ||
      (decide (a.month = b.month) && decide (a.day ≤ b.day))))

/-- Python date comparison `a < b` (lexicographic on year, month, day). -/
def dateLt (a b : PyDate) : Bool :=
  decide (a.year < b.year) ||
  (decide (a.year = b.year) &&
    (decide (a.month < b.month) ||
      (decide (a.month = b.month) && decide (a.day < b.day))))

/-- Days in all years strictly before year `y` (Python `_days_before_year`). -/
def daysBeforeYear (y : Nat) : Nat :=
  (y - 1) * 365 + (y - 1) / 4 - (y - 1) / 100 + (y - 1) / 400

/-- Days in year `y` strictly before month `m` (Python `_days_before_month`). -/
def daysBeforeMonth (y m : Nat) : Nat :=
  (List.range (m - 1)).foldl (fun acc i => acc + daysInMonth y (i + 1)) 0

/-- Python `date.toordinal`: day 1 is 0001-01-01. -/
def toOrdinal (d : PyDate) : Nat :=
  daysBeforeYear d.year + daysBeforeMonth d.year d.month + d.day

/-- Python date subtraction `(a - b).days`. -/
def dateSubDays (a b : PyDate) : Int :=
  (toOrdinal a : Int) - (toOrdinal b : Int)

/-- Python `_ord2ymd` (the inverse of `toordinal`), transcribed from CPython's
datetime implementation; used by date-plus-timedelta. -/
def ord2ymd (n0 : Nat) : PyDate :=
  let n := n0 - 1
  let n400 := n / 146097
  let r400 := n % 146097
  let n100 := r400 / 36524
  let r100 := r400 % 36524
  let n4 := r100 / 1461
  let r4 := r100 % 1461
  let n1 := r4 / 365
  let nn := r4 % 365
  let year := n400 * 400 + 1 + n100 * 100 + n4 * 4 + n1
  if n1 = 4 ∨ n100 = 4 then ⟨year - 1, 12, 31⟩
  else
    let leapyear := n1 == 3 && (n4 != 24 || n100 == 3)
    let month := (nn + 50) / 32
    let preceding := daysBeforeMonth 1 month + (if 2 < month && leapyear then 1 else 0)
    if preceding > nn then
      let month1 := month - 1
      let preceding1 := preceding - (daysInMonth 1 month1 + (if month1 == 2 && leapyear then 1 else 0))
      ⟨year, month1, nn - preceding1 + 1⟩
    else
      ⟨year, month, nn - preceding + 1⟩

/-- Python `date + timedelta(days = n)`: ordinal arithmetic with an
`OverflowError` (modelled as `none`) outside ordinals 1..3652059. -/
def dateAddDays (d : PyDate) (n : Int) : Option PyDate :=
  let o : Int := (toOrdinal d : Int) + n
  if 0 < o ∧ o ≤ 3652059 then some (ord2ymd o.toNat) else none

/-- Python `d - timedelta(days = 1)` for an in-range date `d` other than
0001-01-01: the previous calendar day. In `add_months` it is only applied to
the first day of a month strictly after 0001-01-01. -/
def prevDay : PyDate → PyDate
  | ⟨y, m, day⟩ =>
    if 1 < day then ⟨y, m, day - 1⟩
    else if 1 < m then ⟨y, m - 1, daysInMonth y (m - 1)⟩
    else ⟨y - 1, 12, 31⟩

/-- The local variable `y` of `add_months`: `d.year + (d.month - 1 + months) // 12`.
Python `//` and `%` with the positive divisor 12 are floor division and
nonnegative remainder, which coincide with `Int` `/` and `%` (Euclidean). -/
def addMonthsY (d : PyDate) (months : Int) : Int :=
  (d.year : Int) + ((d.month : Int) - 1 + months) / 12

/-- The local variable `m` of `add_months`: `(d.month - 1 + months) % 12 + 1`. -/
def addMonthsM (d : PyDate) (months : Int) : Int :=
  ((d.month : Int) - 1 + months) % 12 + 1

/-- Model of `add_months(d, months)` from app.py: compute the target month,
probe the first day of the following month, clamp the day to the last day of
the target month. `none` models a `ValueError` escaping from one of the two
`date(...)` constructions (year outside 1..9999). -/
def add_months (d : PyDate) (months : Int) : Option PyDate :=
  match (if addMonthsM d months = 12 then mkDateI (addMonthsY d months + 1) 1 1
         else mkDateI (addMonthsY d months) (addMonthsM d months + 1) 1) with
  | none => none
  | some nm =>
    mkDateI (addMonthsY d months) (addMonthsM d months)
      ((if d.day > (prevDay nm).day then (prevDay nm).day else d.day : Nat) : Int)

/-- ASCII whitespace stripped by Python `str.strip()`. -/
def isSpaceChar (c : Char) : Bool :=
  c == ' ' || c == '\t' || c == '\n' || c == '\r' || c == '\x0b' || c == '\x0c'

/-- Python `str.strip()` on a character list. -/
def stripList (l : List Char) : List Char :=
  ((l.dropWhile isSpaceChar).reverse.dropWhile isSpaceChar).reverse

/-- Python `str.strip()`. -/
def pyStrip (s : String) : String := ⟨stripList s.data⟩

/-- ASCII decimal digit test (the `\d` of the strptime regexes, ASCII case). -/
def isDig (c : Char) : Bool := decide (48 ≤ c.toNat) && decide (c.toNat ≤ 57)

/-- Numeric value of an ASCII digit character. -/
def dval (c : Char) : Nat := c.toNat - 48

/-- Bool test that the code point of `c` lies in `lo..hi`. -/
def charBetween (lo hi : Nat) (c : Char) : Bool :=
  decide (lo ≤ c.toNat) && decide (c.toNat ≤ hi)

/-- Match one literal character of a strptime format. -/
def litChar (c : Char) : List Char → Option (List Char)
  | [] => none
  | a :: rest => if a = c then some rest else none

/-- The strptime `%Y` pattern: exactly four ASCII digits. -/
def matchYear : List Char → Option (Nat × List Char)
  | c1 :: c2 :: c3 :: c4 :: rest =>
    if isDig c1 && isDig c2 && isDig c3 && isDig c4 then
      some (1000 * dval c1 + 100 * dval c2 + 10 * dval c3 + dval c4, rest)
    else none
  | _ => none

/-- Alternatives of the strptime `%m` pattern `1[0-2]|0[1-9]|[1-9]`, listed in
regex alternation order as (value, remaining input) pairs. -/
def monthAlts (cs : List Char) : List (Nat × List Char) :=
  (match cs with
   | c1 :: c2 :: rest =>
     if c1 = '1' && charBetween 48 50 c2 then [(10 + dval c2, rest)] else []
   | _ => []) ++
  (match cs with
   | c1 :: c2 :: rest =>
     if c1 = '0' && charBetween 49 57 c2 then [(dval c2, rest)] else []
   | _ => []) ++
  (match cs with
   | c :: rest => if charBetween 49 57 c then [(dval c, rest)] else []
   | _ => [])

/-- Alternatives of the strptime `%d` pattern `3[01]|[12]\d|0[1-9]|[1-9]`,
listed in regex alternation order as (value, remaining input) pairs. -/
def dayAlts (cs : List Char) : List (Nat × List Char) :=
  (match cs with
   | c1 :: c2 :: rest =>
     if c1 = '3' && charBetween 48 49 c2 then [(30 + dval c2, rest)] else []
   | _ => []) ++
  (match cs with
   | c1 :: c2 :: rest =>
     if charBetween 49 50 c1 && isDig c2 then [(10 * dval c1 + dval c2, rest)] else []
   | _ => []) ++
  (match cs with
   | c1 :: c2 :: rest =>
     if c1 = '0' && charBetween 49 57 c2 then [(dval c2, rest)] else []
   | _ => []) ++
  (match cs with
   | c :: rest => if charBetween 49 57 c then [(dval c, rest)] else []
   | _ => [])

/-- First alternative on which the continuation succeeds (regex backtracking). -/
def firstSome (f : α → Option β) : List α → Option β
  | [] => none
  | a :: rest =>
    match f a with
    | some b => some b
    | none => firstSome f rest

/-- First match of the `%Y-%m-%d` pattern in backtracking order, together with
the unconsumed remainder of the input (the regex is not end-anchored). -/
def matchYmd (cs : List Char) : Option ((Nat × Nat × Nat) × List Char) :=
  match matchYear cs with
  | none => none
  | some (y, r1) =>
    match litChar '-' r1 with
    | none => none
    | some r2 =>
      firstSome (fun mr =>
        match litChar '-' mr.2 with
        | none => none
        | some r3 =>
          firstSome (fun dr => some ((y, mr.1, dr.1), dr.2)) (dayAlts r3)) (monthAlts r2)

/-- First match of the `%d<sep>%m<sep>%Y` pattern in backtracking order,
together with the unconsumed remainder of the input. -/
def matchDmy (sep : Char) (cs : List Char) : Option ((Nat × Nat × Nat) × List Char) :=
  firstSome (fun dr =>
    match litChar sep dr.2 with
    | none => none
    | some r2 =>
      firstSome (fun mr =>
        match litChar sep mr.2 with
        | none => none
        | some r4 =>
          match matchYear r4 with
          | none => none
          | some (y, r5) => some ((y, mr.1, dr.1), r5)) (monthAlts r2)) (dayAlts cs)

/-- One `datetime.strptime` attempt: the pattern must match, the whole input
must be consumed ("unconverted data remains" otherwise), and the matched
components must form a constructible date; every failure raises `ValueError`,
which `parse_yyyy_mm_dd` catches by moving to the next format. -/
def tryFormat (m : Option ((Nat × Nat × Nat) × List Char)) : Option PyDate :=
  match m with
  | none => none
  | some ((y, mo, d), rest) => if rest = [] then mkDate y mo d else none

/-- Model of `parse_yyyy_mm_dd` from app.py: strip, return `None` on empty
input, then try the formats `%Y-%m-%d`, `%d/%m/%Y`, `%d-%m-%Y` in order. -/
def parse_yyyy_mm_dd (s : String) : Option PyDate :=
  let t := stripList s.data
  if t = [] then none
  else
    match tryFormat (matchYmd t) with
    | some d => some d
    | none =>
      match tryFormat (matchDmy '/' t) with
      | some d => some d
      | none => tryFormat (matchDmy '-' t)

/-- Python call `parse_yyyy_mm_dd(x)` where `x` may be `None`; the function
body starts with `s = (s or "").strip()`. -/
def parse_opt (o : Option String) : Option PyDate := parse_yyyy_mm_dd (o.getD "")

/-- Digits of an integer literal after the first digit: single underscores are
allowed between digits (Python grammar). -/
def digitsUndAux (acc : Nat) : List Char → Option Nat
  | [] => some acc
  | '_' :: c :: rest => if isDig c then digitsUndAux (10 * acc + dval c) rest else none
  | ['_'] => none
  | c :: rest => if isDig c then digitsUndAux (10 * acc + dval c) rest else none

/-- A nonempty ASCII digit sequence with optional single underscores between
digits, as accepted inside a Python int literal. -/
def digitsUnd : List Char → Option Nat
  | [] => none
  | c :: rest => if isDig c then digitsUndAux (dval c) rest else none

/-- Model of Python `int(s)` on the already-stripped strings it receives here:
optional sign followed by a digit sequence; `none` models `ValueError`.
(Restricted to ASCII digits.) -/
def pyInt (s : String) : Option Int :=
  match s.data with
  | '+' :: rest => (digitsUnd rest).map (fun n => (n : Int))
  | '-' :: rest => (digitsUnd rest).map (fun n => -(n : Int))
  | l => (digitsUnd l).map (fun n => (n : Int))

/-- The months block of `compute_permanence_end`: strip, empty means absent,
then `int(ms)` with `ValueError` caught to `None`. -/
def parse_months (months_str : String) : Option Int :=
  let ms := pyStrip months_str
  if ms = "" then none else pyInt ms

/-- ASCII digit character for a value in 0..9. -/
def digChar (n : Nat) : Char := Char.ofNat (48 + n)

/-- Two-digit zero-padded decimal rendering (values 0..99). -/
def pad2 (n : Nat) : List Char := [digChar (n / 10), digChar (n % 10)]

/-- Four-digit zero-padded decimal rendering (values 0..9999). -/
def pad4 (n : Nat) : List Char :=
  [digChar (n / 1000), digChar (n / 100 % 10), digChar (n / 10 % 10), digChar (n % 10)]

/-- Characters of Python `date.isoformat()`: `YYYY-MM-DD`. -/
def isoChars (d : PyDate) : List Char :=
  pad4 d.year ++ '-' :: (pad2 d.month ++ '-' :: pad2 d.day)

/-- Python `date.isoformat()`. -/
def isoformat (d : PyDate) : String := ⟨isoChars d⟩

/-- Model of `compute_permanence_end(start_str, months_str, end_str)` from
app.py, returning `(start_iso, months_int, end_iso)`. The outer `Option`
models an uncaught `ValueError` escaping from `add_months` (month arithmetic
landing outside years 1..9999); every other input returns normally. -/
def compute_permanence_end (start_str months_str end_str : String) :
    Option (Option String × Option Int × Option String) :=
  match parse_yyyy_mm_dd end_str, parse_yyyy_mm_dd start_str, parse_months months_str with
  | none, some sd, some mi =>
    match add_months sd mi with
    | none => none
    | some e => some (some (isoformat sd), some mi, some (isoformat e))
  | e, s, m => some (s.map isoformat, m, e.map isoformat)

/-- `compute_permanence_end` as called by the routes, where each argument may
be `None` (absent form field); `parse_yyyy_mm_dd` and the months block both
begin by replacing `None` with `""`. -/
def compute_permanence_endO (a b c : Option String) :
    Option (Option String × Option Int × Option String) :=
  compute_permanence_end (a.getD "") (b.getD "") (c.getD "")

/-- The columns of a `clients` row relevant to end-date handling, plus the
rowid. `none` models SQL NULL. After `init_db` both end columns always exist
in the schema, so the `in keys` checks of the source are always true. -/
structure ClientRow where
  id : Nat
  permanence_end_date : Option String
  permanence_end : Option String
deriving DecidableEq, Repr

/-- Python truthiness of a TEXT column value: `None` and `""` are falsy. -/
def optStrTruthy : Option String → Bool
  | none => false
  | some s => !(s == "")

/-- Model of `get_end_date_from_client_row(c)` for a non-`None` row: prefer
`permanence_end_date`, fall back to `permanence_end` when the former is falsy,
then `(end_iso or "").strip() or None`. -/
def get_end_date_from_client_row (c : ClientRow) : Option String :=
  let e1 := c.permanence_end_date
  let e2 := if optStrTruthy e1 then e1 else c.permanence_end
  let t := stripList (e2.getD "").data
  if t = [] then none else some ⟨t⟩

/-- The final normalisation step `(x or "").strip() or None` of the reader. -/
def normBlank (o : Option String) : Option String :=
  let t := stripList (o.getD "").data
  if t = [] then none else some ⟨t⟩

/-- SQL condition `col IS NOT NULL AND col != ''`. -/
def sqlNonEmpty : Option String → Bool
  | none => false
  | some s => !(s == "")

/-- SQL expression `COALESCE(NULLIF(permanence_end_date, ''), permanence_end)`
used by the calendar and API queries. -/
def sqlEffectiveEnd (c : ClientRow) : Option String :=
  match c.permanence_end_date with
  | none => c.permanence_end
  | some s => if s == "" then c.permanence_end else some s

/-- The WHERE clause of the calendar and API queries: at least one of the two
end columns is non-NULL and nonempty. -/
def sqlWhereHasEnd (c : ClientRow) : Bool :=
  sqlNonEmpty c.permanence_end_date || sqlNonEmpty c.permanence_end

/-- Byte-order comparison of ASCII text, modelling SQLite's BINARY collation
(memcmp) used by `ORDER BY end_date ASC`. -/
def memLe : List Char → List Char → Bool
  | [], _ => true
  | _ :: _, [] => false
  | a :: as, b :: bs =>
    if a.toNat < b.toNat then true
    else if a.toNat = b.toNat then memLe as bs
    else false

/-- Sort key of a calendar row: the selected `end_date` text. Rows passing the
WHERE clause always have a non-NULL key, so the NULL case (`getD ""`) is
unreachable there. -/
def rowKey (c : ClientRow) : List Char := ((sqlEffectiveEnd c).getD "").data

/-- Row comparison used to model `ORDER BY end_date ASC`. -/
def rowLe (a b : ClientRow) : Bool := memLe (rowKey a) (rowKey b)

/-- Insert an element into a list, before the first entry it compares
less-or-equal to; on an already sorted list this is one step of a stable
insertion sort. -/
def insertSorted (le : α → α → Bool) (a : α) : List α → List α
  | [] => [a]
  | b :: bs => if le a b then a :: b :: bs else b :: insertSorted le a bs

/-- Stable insertion sort (earlier elements stay before equal later
elements), used to model the database `ORDER BY`. -/
def insertionSort (le : α → α → Bool) : List α → List α
  | [] => []
  | a :: as => insertSorted le a (insertionSort le as)

/-- The query of `calendar_view`, modelled as filter + stable sort on the
`end_date` text. (SQLite does not document a tie order for `ORDER BY`; the
model fixes the scan-order-stable behaviour.) -/
def sqlCalendarRows (clients : List ClientRow) : List ClientRow :=
  insertionSort rowLe (clients.filter sqlWhereHasEnd)

/-- The window parameter handling of `calendar_view`: strip, `int(days)` with
`ValueError` falling back to the default 365. -/
def calendar_days_int (days_str : String) : Int :=
  (pyInt (pyStrip days_str)).getD 365

/-- The loop body of `calendar_view`: parse the row's `end_date`; skip rows
that do not parse; keep rows with `today <= end_d <= limit`, paired with
`(end_d - today).days`. -/
def calendarEntry (today limit : PyDate) (r : ClientRow) : Option (ClientRow × Int) :=
  match parse_opt (sqlEffectiveEnd r) with
  | none => none
  | some e => if dateLe today e && dateLe e limit then some (r, dateSubDays e today) else none

/-- Model of the `upcoming` list computed by `calendar_view`. The `today`
argument models the value of `date.today()` read inside the route. `none`
models the `OverflowError` raised by `today + timedelta(days=days_int)` when
the limit falls outside the representable date range. -/
def calendar_view_upcoming (clients : List ClientRow) (days_str : String) (today : PyDate) :
    Option (List (ClientRow × Int)) :=
  match dateAddDays today (calendar_days_int days_str) with
  | none => none
  | some limit => some ((sqlCalendarRows clients).filterMap (calendarEntry today limit))

/-- Model of `days_until(end_iso)` from app.py. The `today` argument models
the value of `date.today()` that the source reads inside the function; it is
not a parameter of the source function. -/
def days_until (end_iso : String) (today : PyDate) : Option Int :=
  match parse_yyyy_mm_dd end_iso with
  | none => none
  | some d => some (dateSubDays d today)

/-- SQL condition `col IS NULL OR col = ''` used by the backfill UPDATEs. -/
def sqlBlank (o : Option String) : Bool := !(sqlNonEmpty o)

/-- First backfill UPDATE of `init_db`: copy `permanence_end` into a blank
`permanence_end_date`. -/
def backfillStep1 (r : ClientRow) : ClientRow :=
  if sqlBlank r.permanence_end_date && sqlNonEmpty r.permanence_end then
    { r with permanence_end_date := r.permanence_end }
  else r

/-- Second backfill UPDATE of `init_db`: copy `permanence_end_date` into a
blank `permanence_end`. -/
def backfillStep2 (r : ClientRow) : ClientRow :=
  if sqlBlank r.permanence_end && sqlNonEmpty r.permanence_end_date then
    { r with permanence_end := r.permanence_end_date }
  else r

/-- The two backfill UPDATEs of `init_db`, in source order. -/
def init_db_backfill (db : List ClientRow) : List ClientRow :=
  (db.map backfillStep1).map backfillStep2

/-- The permanence form fields read by `new_client` and `update_client`;
`none` models an absent field. -/
structure PermForm where
  permanence_start_date : Option String
  permanence_start : Option String
  permanence_months : Option String
  permanence_end_date : Option String
  permanence_end : Option String
deriving DecidableEq, Repr

/-- Python `a or b` on two optional form strings. -/
def pyOrStr (a b : Option String) : Option String := if optStrTruthy a then a else b

/-- The start argument passed to `compute_permanence_end` by the routes. -/
def form_start (f : PermForm) : Option String :=
  pyOrStr f.permanence_start_date f.permanence_start

/-- The end argument passed to `compute_permanence_end` by the routes. -/
def form_end (f : PermForm) : Option String :=
  pyOrStr f.permanence_end_date f.permanence_end

/-- End-date effect of the `new_client` POST handler: run the resolver and
insert a row whose two end columns both hold `p_end`. `none` models the
request failing with an uncaught exception before the INSERT. -/
def new_client (db : List ClientRow) (newId : Nat) (f : PermForm) : Option (List ClientRow) :=
  match compute_permanence_endO (form_start f) f.permanence_months (form_end f) with
  | none => none
  | some (_, _, p_end) => some (db ++ [⟨newId, p_end, p_end⟩])

/-- End-date effect of the `update_client` POST handler: run the resolver and
set both end columns of the row with the given id to `p_end`. -/
def update_client (db : List ClientRow) (cid : Nat) (f : PermForm) : Option (List ClientRow) :=
  match compute_permanence_endO (form_start f) f.permanence_months (form_end f) with
  | none => none
  | some (_, _, p_end) =>
    some (db.map fun r =>
      if r.id == cid then
        { r with permanence_end := p_end, permanence_end_date := p_end }
      else r)

/-- The claimed column invariant: the two end columns are never in a state
where exactly one of them is blank (NULL or empty). -/
def endSynced (r : ClientRow) : Prop :=
  sqlBlank r.permanence_end = sqlBlank r.permanence_end_date

/-! ### Digit and character lemmas -/

theorem digChar_toNat {k : Nat} (h : k ≤ 9) : (digChar k).toNat = 48 + k := by
  interval_cases k <;> decide

theorem isDig_digChar {k : Nat} (h : k ≤ 9) : isDig (digChar k) = true := by
  interval_cases k <;> decide

theorem isSpaceChar_digChar {k : Nat} (h : k ≤ 9) : isSpaceChar (digChar k) = false := by
  interval_cases k <;> decide

theorem dval_digChar {k : Nat} (h : k ≤ 9) : dval (digChar k) = k := by
  interval_cases k <;> decide

/-! ### Parser lemmas: the strptime patterns on zero-padded output -/

theorem matchYear_pad4 {y : Nat} (h : y ≤ 9999) (r : List Char) :
    matchYear (pad4 y ++ r) = some (y, r) := by
  have h1 : y / 1000 ≤ 9 := by omega
  have h2 : y / 100 % 10 ≤ 9 := by omega
  have h3 : y / 10 % 10 ≤ 9 := by omega
  have h4 : y % 10 ≤ 9 := by omega
  have hval : 1000 * (y / 1000) + 100 * (y / 100 % 10) + 10 * (y / 10 % 10) + y % 10 = y := by
    omega
  simp only [pad4, List.cons_append, matchYear, isDig_digChar h1, isDig_digChar h2,
    isDig_digChar h3, isDig_digChar h4, Bool.and_self, if_true,
    dval_digChar h1, dval_digChar h2, dval_digChar h3, dval_digChar h4, hval,
    List.nil_append]

theorem monthAlts_pad2 {m : Nat} (hm1 : 1 ≤ m) (hm2 : m ≤ 12) (r : List Char) :
    (monthAlts (pad2 m ++ r)).head? = some (m, r) := by
  interval_cases m <;> rfl

theorem dayAlts_pad2 {d : Nat} (hd1 : 1 ≤ d) (hd2 : d ≤ 31) (r : List Char) :
    (dayAlts (pad2 d ++ r)).head? = some (d, r) := by
  interval_cases d <;> rfl

theorem firstSome_of_head {f : α → Option β} {l : List α} {a : α} {b : β}
    (h : l.head? = some a) (hf : f a = some b) : firstSome f l = some b := by
  cases l with
  | nil => simp at h
  | cons x xs =>
    simp only [List.head?_cons, Option.some.injEq] at h
    subst h
    simp [firstSome, hf]

theorem dropWhile_eq_self_of_head {p : α → Bool} {l : List α}
    (h : ∀ c, l.head? = some c → p c = false) : l.dropWhile p = l := by
  cases l with
  | nil => rfl
  | cons a as =>
    rw [List.dropWhile_cons, h a rfl]
    simp

theorem stripList_eq_self {l : List Char}
    (h1 : ∀ c, l.head? = some c → isSpaceChar c = false)
    (h2 : ∀ c, l.getLast? = some c → isSpaceChar c = false) :
    stripList l = l := by
  unfold stripList
  rw [dropWhile_eq_self_of_head h1]
  rw [dropWhile_eq_self_of_head (fun c hc => h2 c (by rwa [List.head?_reverse] at hc))]
  exact List.reverse_reverse l

theorem stripList_isoChars (d : PyDate) (hy : d.year ≤ 9999) :
    stripList (isoChars d) = isoChars d := by
  apply stripList_eq_self
  · intro c hc
    simp only [isoChars, pad4, List.cons_append, List.head?_cons, Option.some.injEq] at hc
    subst hc
    exact isSpaceChar_digChar (by omega)
  · intro c hc
    rw [← List.head?_reverse] at hc
    simp only [isoChars, pad4, pad2, List.cons_append, List.nil_append, List.reverse_cons,
      List.reverse_append, List.reverse_nil, List.nil_append, List.cons_append,
      List.append_assoc, List.head?_cons, Option.some.injEq] at hc
    subst hc
    exact isSpaceChar_digChar (by omega)

theorem isValidDate_bounds {y m d : Nat} (h : isValidDate y m d = true) :
    1 ≤ y ∧ y ≤ 9999 ∧ 1 ≤ m ∧ m ≤ 12 ∧ 1 ≤ d ∧ d ≤ daysInMonth y m := by
  simp only [isValidDate, Bool.and_eq_true, decide_eq_true_eq] at h
  tauto

theorem daysInMonth_le_31 (y m : Nat) : daysInMonth y m ≤ 31 := by
  unfold daysInMonth
  split <;> [split <;> omega; skip]
  split <;> omega

theorem matchYmd_isoChars (d : PyDate) (h : isValidDate d.year d.month d.day = true) :
    matchYmd (isoChars d) = some ((d.year, d.month, d.day), []) := by
  obtain ⟨hy1, hy2, hm1, hm2, hd1, hd2⟩ := isValidDate_bounds h
  have hd31 : d.day ≤ 31 := le_trans hd2 (daysInMonth_le_31 _ _)
  unfold isoChars matchYmd
  rw [matchYear_pad4 hy2]
  show (match litChar '-' ('-' :: (pad2 d.month ++ '-' :: pad2 d.day)) with
    | none => none
    | some r2 => firstSome _ (monthAlts r2)) = _
  rw [show litChar '-' ('-' :: (pad2 d.month ++ '-' :: pad2 d.day)) =
      some (pad2 d.month ++ '-' :: pad2 d.day) from rfl]
  show firstSome _ (monthAlts (pad2 d.month ++ '-' :: pad2 d.day)) = _
  refine firstSome_of_head (monthAlts_pad2 hm1 hm2 _) ?_
  show (match litChar '-' ('-' :: pad2 d.day) with
    | none => none
    | some r3 => firstSome _ (dayAlts r3)) = _
  rw [show litChar '-' ('-' :: pad2 d.day) = some (pad2 d.day) from rfl]
  show firstSome _ (dayAlts (pad2 d.day)) = _
  rw [show pad2 d.day = pad2 d.day ++ [] from (List.append_nil _).symm]
  exact firstSome_of_head (dayAlts_pad2 hd1 hd31 _) rfl

/-- Round trip: `parse_yyyy_mm_dd` recovers any valid date from its
`isoformat` rendering (the first format wins and the whole input matches). -/
theorem parse_isoformat {d : PyDate} (h : isValidDate d.year d.month d.day = true) :
    parse_yyyy_mm_dd (isoformat d) = some d := by
  obtain ⟨hy1, hy2, hm1, hm2, hd1, hd2⟩ := isValidDate_bounds h
  unfold parse_yyyy_mm_dd isoformat
  rw [show (String.mk (isoChars d)).data = isoChars d from rfl]
  rw [stripList_isoChars d hy2]
  have hne : isoChars d ≠ [] := by simp [isoChars, pad4]
  rw [if_neg hne]
  rw [matchYmd_isoChars d h]
  have hmk : mkDate d.year d.month d.day = some ⟨d.year, d.month, d.day⟩ := by
    unfold mkDate
    rw [if_pos h]
  have htf : tryFormat (some ((d.year, d.month, d.day), ([] : List Char))) =
      some ⟨d.year, d.month, d.day⟩ := by
    show (if ([] : List Char) = [] then mkDate d.year d.month d.day else none) =
      some ⟨d.year, d.month, d.day⟩
    rw [if_pos rfl, hmk]
  rw [htf]

/-! ### Lemmas about the month arithmetic -/

theorem mkDateI_eq_some {y m d : Int} {e : PyDate} (h : mkDateI y m d = some e) :
    0 ≤ y ∧ 0 ≤ m ∧ 0 ≤ d ∧ isValidDate y.toNat m.toNat d.toNat = true ∧
      e = ⟨y.toNat, m.toNat, d.toNat⟩ := by
  unfold mkDateI mkDate at h
  split_ifs at h with h1 h2
  · injection h with h3
    exact ⟨h1.1, h1.2.1, h1.2.2, h2, h3.symm⟩

theorem daysInMonth_dec (y : Nat) : daysInMonth y 12 = 31 := rfl

theorem prevDay_mk (y m day : Nat) :
    prevDay ⟨y, m, day⟩ =
      if 1 < day then ⟨y, m, day - 1⟩
      else if 1 < m then ⟨y, m - 1, daysInMonth y (m - 1)⟩
      else ⟨y - 1, 12, 31⟩ := rfl

/-- Structure of a successful `add_months` run: the result lands exactly
`months` calendar months after `d` (counting months linearly), and its day is
`d.day` clamped to the length of the target month. -/
theorem add_months_spec {d : PyDate} {months : Int} {e : PyDate}
    (h : add_months d months = some e) :
    ((e.year : Int) * 12 + (e.month : Int)) = ((d.year : Int) * 12 + (d.month : Int)) + months ∧
    1 ≤ e.month ∧ e.month ≤ 12 ∧
    e.day = (if daysInMonth e.year e.month < d.day then daysInMonth e.year e.month else d.day) ∧
    isValidDate e.year e.month e.day = true := by
  have hm0 : (0 : Int) ≤ ((d.month : Int) - 1 + months) % 12 := Int.emod_nonneg _ (by omega)
  have hm12 : ((d.month : Int) - 1 + months) % 12 < 12 := Int.emod_lt_of_pos _ (by omega)
  have hdiv : 12 * (((d.month : Int) - 1 + months) / 12) + ((d.month : Int) - 1 + months) % 12 =
      (d.month : Int) - 1 + months := Int.ediv_add_emod _ _
  have hMlo : (1 : Int) ≤ addMonthsM d months := by unfold addMonthsM; omega
  have hMhi : addMonthsM d months ≤ 12 := by unfold addMonthsM; omega
  unfold add_months at h
  split at h
  case h_1 => exact absurd h (by simp)
  case h_2 nm heq =>
    split at heq
    case isTrue hc =>
      obtain ⟨hy1, -, -, hvn, hn⟩ := mkDateI_eq_some heq
      have hlast : (prevDay nm).day = 31 := by
        rw [hn]
        simp [prevDay]
      rw [hlast] at h
      obtain ⟨hye, hme, hde, hve, he⟩ := mkDateI_eq_some h
      have f1 : e.year = (addMonthsY d months).toNat := by rw [he]
      have f2 : e.month = (addMonthsM d months).toNat := by rw [he]
      have f3 : e.day = ((if d.day > 31 then (31 : Nat) else d.day : Nat) : Int).toNat := by
        rw [he]
      have f2n : e.month = 12 := by rw [f2, hc]; rfl
      have hdim : daysInMonth e.year e.month = 31 := by rw [f2n]; exact daysInMonth_dec _
      have f1i : (e.year : Int) = addMonthsY d months := by
        rw [f1]; exact Int.toNat_of_nonneg hye
      refine ⟨?_, by omega, by omega, ?_, ?_⟩
      · unfold addMonthsY at f1i
        unfold addMonthsM at hc
        omega
      · rw [hdim, f3, Int.toNat_natCast]
      · rw [f1, f2, f3]
        exact hve
    case isFalse hc =>
      obtain ⟨hy1, hm1, -, hvn, hn⟩ := mkDateI_eq_some heq
      obtain ⟨hb1, hb2, hb3, hb4, -, -⟩ := isValidDate_bounds hvn
      have hlast : (prevDay nm).day =
          daysInMonth (addMonthsY d months).toNat (addMonthsM d months).toNat := by
        rw [hn, prevDay_mk, Int.toNat_one]
        rw [if_neg (by omega), if_pos (by omega : 1 < (addMonthsM d months + 1).toNat)]
        show daysInMonth _ ((addMonthsM d months + 1).toNat - 1) = _
        congr 1
        omega
      rw [hlast] at h
      obtain ⟨hye, hme, hde, hve, he⟩ := mkDateI_eq_some h
      have f1 : e.year = (addMonthsY d months).toNat := by rw [he]
      have f2 : e.month = (addMonthsM d months).toNat := by rw [he]
      have f3 : e.day = ((if d.day > daysInMonth (addMonthsY d months).toNat
          (addMonthsM d months).toNat then daysInMonth (addMonthsY d months).toNat
          (addMonthsM d months).toNat else d.day : Nat) : Int).toNat := by
        rw [he]
      have f1i : (e.year : Int) = addMonthsY d months := by
        rw [f1]; exact Int.toNat_of_nonneg hye
      have f2i : (e.month : Int) = addMonthsM d months := by
        rw [f2]; exact Int.toNat_of_nonneg (by omega)
      refine ⟨?_, by omega, by omega, ?_, ?_⟩
      · unfold addMonthsY at f1i
        unfold addMonthsM at f2i
        omega
      · rw [f3, Int.toNat_natCast, f1, f2]
      · rw [f1, f2, f3]
        exact hve

/-- A date produced by `add_months` is constructible, hence valid. -/
theorem add_months_valid {d : PyDate} {months : Int} {e : PyDate}
    (h : add_months d months = some e) : isValidDate e.year e.month e.day = true :=
  (add_months_spec h).2.2.2.2

theorem parse_empty : parse_yyyy_mm_dd "" = none := rfl

theorem parse_months_empty : parse_months "" = none := rfl

theorem dateLt_iff {a b : PyDate} : dateLt a b = true ↔
    (a.year < b.year ∨ (a.year = b.year ∧
      (a.month < b.month ∨ (a.month = b.month ∧ a.day < b.day)))) := by
  simp [dateLt]

theorem dateLe_iff {a b : PyDate} : dateLe a b = true ↔
    (a.year < b.year ∨ (a.year = b.year ∧
      (a.month < b.month ∨ (a.month = b.month ∧ a.day ≤ b.day)))) := by
  simp [dateLe]

/-! ### Lemmas about the resolver -/

/-- When the explicit end parses, the resolver never calls `add_months`:
it returns the parsed fields directly, the end normalised to ISO text. -/
theorem compute_end_present (start_str months_str end_str : String) (e : PyDate)
    (h : parse_yyyy_mm_dd end_str = some e) :
    compute_permanence_end start_str months_str end_str =
      some ((parse_yyyy_mm_dd start_str).map isoformat, parse_months months_str,
        some (isoformat e)) := by
  unfold compute_permanence_end
  rw [h]
  rcases parse_yyyy_mm_dd start_str with _ | sd <;>
    rcases parse_months months_str with _ | mi <;> rfl

/-- Exact characterisation of the inputs on which the resolver raises. -/
theorem compute_none_iff (a b c : String) :
    compute_permanence_end a b c = none ↔
      (parse_yyyy_mm_dd c = none ∧ ∃ sd mi, parse_yyyy_mm_dd a = some sd ∧
        parse_months b = some mi ∧ add_months sd mi = none) := by
  unfold compute_permanence_end
  rcases hc : parse_yyyy_mm_dd c with _ | e
  · rcases ha : parse_yyyy_mm_dd a with _ | sd
    · simp
    · rcases hb : parse_months b with _ | mi
      · simp
      · rcases hm : add_months sd mi with _ | ee
        · simp [hm]
        · simp [hm]
  · simp

theorem compute_end_malformed (a b s : String) (h : parse_yyyy_mm_dd s = none) :
    compute_permanence_end a b s = compute_permanence_end a b "" := by
  unfold compute_permanence_end
  rw [h, parse_empty]

theorem compute_start_malformed (a b c : String) (h : parse_yyyy_mm_dd a = none) :
    compute_permanence_end a b c = compute_permanence_end "" b c := by
  unfold compute_permanence_end
  rw [h, parse_empty]

theorem compute_months_malformed (a b c : String) (h : parse_months b = none) :
    compute_permanence_end a b c = compute_permanence_end a "" c := by
  unfold compute_permanence_end
  rw [h, parse_months_empty]

/-! ### Claim theorems: the Date Resolver -/

/-- Claim C1 (corrected): whenever `add_months` returns an end date at all,
that end date's day-of-month equals the start's day-of-month, unless the
target month is shorter, in which case it is the last day of the target
month; in particular 2024-01-31 plus one month resolves to 2024-02-29 and
2023-01-31 plus one month resolves to 2023-02-28. (The original unconditional
claim fails where the month arithmetic raises; see the counterexample.) -/
theorem claim1_day_clamping (d : PyDate) (months : Int) (e : PyDate)
    (hd : isValidDate d.year d.month d.day = true) (hm : 0 < months)
    (h : add_months d months = some e) :
    (e.day = if daysInMonth e.year e.month < d.day
      then daysInMonth e.year e.month else d.day) ∧
    compute_permanence_end "2024-01-31" "1" "" =
      some (some "2024-01-31", some 1, some "2024-02-29") ∧
    compute_permanence_end "2023-01-31" "1" "" =
      some (some "2023-01-31", some 1, some "2023-02-28") :=
  ⟨(add_months_spec h).2.2.2.1, by decide, by decide⟩

/-- Witness for C1 at start 2024-01-31, months 1, end 2024-02-29. -/
theorem claim1_day_clamping_witness :
    isValidDate 2024 1 31 = true ∧ (0 : Int) < 1 ∧
    add_months ⟨2024, 1, 31⟩ 1 = some ⟨2024, 2, 29⟩ ∧
    ((⟨2024, 2, 29⟩ : PyDate).day = if daysInMonth 2024 2 < 31
      then daysInMonth 2024 2 else 31) :=
  ⟨by decide, by decide, by decide,
    (claim1_day_clamping ⟨2024, 1, 31⟩ 1 ⟨2024, 2, 29⟩ (by decide) (by decide) (by decide)).1⟩

/-- Counterexample to C1 as stated: for the valid start 9999-11-30 and the
positive month count 1 the claimed end date would be 9999-12-30, but the
probe of the following month's first day raises `ValueError` (year 10000), so
no end date is returned and the request fails. -/
theorem claim1_counterexample :
    isValidDate 9999 11 30 = true ∧
    compute_permanence_end "9999-11-30" "1" "" = none := by
  exact ⟨by decide, by decide⟩

/-- Claim C2 (confirmed): whenever the explicit end parses to a date, the
resolver returns exactly that end date (normalised to ISO text), whatever the
start and months fields hold, and no exception can escape. -/
theorem claim2_explicit_end_wins (start_str months_str end_str : String) (e : PyDate)
    (h : parse_yyyy_mm_dd end_str = some e) :
    compute_permanence_end start_str months_str end_str =
      some ((parse_yyyy_mm_dd start_str).map isoformat, parse_months months_str,
        some (isoformat e)) :=
  compute_end_present start_str months_str end_str e h

/-- Witness for C2: a contradictory start/months pair is ignored. -/
theorem claim2_explicit_end_wins_witness :
    parse_yyyy_mm_dd "2030-12-31" = some ⟨2030, 12, 31⟩ ∧
    compute_permanence_end "2024-01-01" "1" "2030-12-31" =
      some ((parse_yyyy_mm_dd "2024-01-01").map isoformat, parse_months "1",
        some (isoformat ⟨2030, 12, 31⟩)) :=
  ⟨by decide,
    claim2_explicit_end_wins "2024-01-01" "1" "2030-12-31" ⟨2030, 12, 31⟩ (by decide)⟩

/-- Claim C6 (corrected): unparseable date text and non-numeric months text
each degrade to the same result as an absent field, independently of the
other fields, and the resolver returns normally in every case except one:
it raises exactly when the end is absent, start and months are present, and
the month arithmetic lands outside the representable years. -/
theorem claim6_graceful_degradation :
    (∀ a b s, parse_yyyy_mm_dd s = none →
      compute_permanence_end a b s = compute_permanence_end a b "") ∧
    (∀ a b c, parse_yyyy_mm_dd a = none →
      compute_permanence_end a b c = compute_permanence_end "" b c) ∧
    (∀ a b c, parse_months b = none →
      compute_permanence_end a b c = compute_permanence_end a "" c) ∧
    (∀ a b c, compute_permanence_end a b c = none ↔
      (parse_yyyy_mm_dd c = none ∧ ∃ sd mi, parse_yyyy_mm_dd a = some sd ∧
        parse_months b = some mi ∧ add_months sd mi = none)) :=
  ⟨compute_end_malformed, compute_start_malformed, compute_months_malformed,
    compute_none_iff⟩

/-- Witness for C6: the invalid date text 31/02/2024 degrades to the same
result as an empty end field. -/
theorem claim6_graceful_degradation_witness :
    parse_yyyy_mm_dd "31/02/2024" = none ∧
    compute_permanence_end "2024-01-01" "6" "31/02/2024" =
      compute_permanence_end "2024-01-01" "6" "" :=
  ⟨by decide, claim6_graceful_degradation.1 "2024-01-01" "6" "31/02/2024" (by decide)⟩

/-- Counterexample to C6 as stated: the well-formed input (9999-12-01, 1, "")
lets a `ValueError` escape from the resolver, so it is not exception-free on
every input. -/
theorem claim6_counterexample :
    compute_permanence_end "9999-12-01" "1" "" = none := by decide

/-- Claim C7 (confirmed): feeding the resolver's own computed end date back
as the explicit end leaves the result unchanged. -/
theorem claim7_idempotent (a b : String) (s : Option String) (m : Option Int)
    (e : Option String) (h : compute_permanence_end a b "" = some (s, m, e)) :
    compute_permanence_end a b (e.getD "") = some (s, m, e) := by
  rcases e with _ | iso
  · exact h
  · rcases ha : parse_yyyy_mm_dd a with _ | sd
    · rw [compute_start_malformed a b "" ha] at h
      have hval2 : compute_permanence_end "" b "" =
          some (none, parse_months b, none) := by
        unfold compute_permanence_end
        rw [parse_empty]
        rcases parse_months b with _ | mi <;> rfl
      rw [hval2] at h
      simp at h
    · rcases hb : parse_months b with _ | mi
      · rw [compute_months_malformed a b "" hb] at h
        have hval2 : compute_permanence_end a "" "" =
            some ((parse_yyyy_mm_dd a).map isoformat, none, none) := by
          unfold compute_permanence_end
          rw [parse_empty, parse_months_empty]
          rcases parse_yyyy_mm_dd a with _ | sd2 <;> rfl
        rw [hval2] at h
        simp at h
      · have hred : compute_permanence_end a b "" =
            (match add_months sd mi with
             | none => none
             | some ed => some (some (isoformat sd), some mi, some (isoformat ed))) := by
          unfold compute_permanence_end
          rw [parse_empty, ha, hb]
        rcases hadd : add_months sd mi with _ | ed
        · rw [hadd] at hred
          rw [hred] at h
          simp at h
        · rw [hadd] at hred
          rw [hred] at h
          simp only [Option.some.injEq, Prod.mk.injEq] at h
          obtain ⟨hs, hm2, he⟩ := h
          rw [show (some iso).getD "" = iso from rfl, ← he,
            compute_end_present a b (isoformat ed) ed
              (parse_isoformat (add_months_valid hadd)), ha, hb]
          simp only [Option.map_some']
          rw [hs, hm2]

/-- Witness for C7 at start 2024-01-31, months 1. -/
theorem claim7_idempotent_witness :
    compute_permanence_end "2024-01-31" "1" "" =
      some (some "2024-01-31", some 1, some "2024-02-29") ∧
    compute_permanence_end "2024-01-31" "1" ((some "2024-02-29").getD "") =
      some (some "2024-01-31", some 1, some "2024-02-29") :=
  ⟨by decide,
    claim7_idempotent "2024-01-31" "1" (some "2024-01-31") (some 1)
      (some "2024-02-29") (by decide)⟩

/-- Claim C9 (corrected): with the ambient clock made explicit, `days_until`
is a function of its text input and the clock date only through that date's
ordinal (two runs under equal clock readings agree), but the clock is a real
input read inside the function rather than a parameter: the same explicit
argument yields different results under different clock dates. -/
theorem claim9_determinism :
    (∀ e t1 t2, toOrdinal t1 = toOrdinal t2 → days_until e t1 = days_until e t2) ∧
    days_until "2024-01-10" ⟨2024, 1, 1⟩ ≠ days_until "2024-01-10" ⟨2024, 1, 5⟩ := by
  constructor
  · intro e t1 t2 ht
    unfold days_until
    rcases parse_yyyy_mm_dd e with _ | d
    · rfl
    · unfold dateSubDays
      rw [ht]
  · decide

/-- Witness for C9: two distinct representations of the same clock ordinal
give the same answer. -/
theorem claim9_determinism_witness :
    toOrdinal ⟨2024, 1, 32⟩ = toOrdinal ⟨2024, 2, 1⟩ ∧
    days_until "2024-01-10" ⟨2024, 1, 32⟩ = days_until "2024-01-10" ⟨2024, 2, 1⟩ :=
  ⟨by decide, claim9_determinism.1 "2024-01-10" ⟨2024, 1, 32⟩ ⟨2024, 2, 1⟩ (by decide)⟩

/-- Counterexample to C9 as stated: `days_until` reads `date.today()` inside
the function, so two runs with the same explicit argument can differ — it is
not a pure function of its explicit inputs with an injectable `today`. -/
theorem claim9_counterexample :
    days_until "2024-01-10" ⟨2024, 1, 1⟩ = some 9 ∧
    days_until "2024-01-10" ⟨2024, 1, 5⟩ = some 5 := by
  exact ⟨by decide, by decide⟩

/-- Claim C10 (corrected): the resolver has no guard on non-positive month
counts: whenever the arithmetic completes, zero months returns the start date
itself and negative months return a strictly earlier date; but at the upper
boundary (e.g. a December 9999 start with zero months) the next-month probe
raises instead of returning the (representable) result. -/
theorem claim10_no_nonpositive_guard (d : PyDate) (m : Int) (e : PyDate)
    (hd : isValidDate d.year d.month d.day = true) :
    (m = 0 → add_months d m = some e → e = d) ∧
    (m < 0 → add_months d m = some e → dateLt e d = true) ∧
    compute_permanence_end "2024-03-15" "0" "" =
      some (some "2024-03-15", some 0, some "2024-03-15") ∧
    compute_permanence_end "2024-03-15" "-1" "" =
      some (some "2024-03-15", some (-1), some "2024-02-15") := by
  obtain ⟨b1, b2, b3, b4, b5, b6⟩ := isValidDate_bounds hd
  refine ⟨?_, ?_, by decide, by decide⟩
  · intro h0 h
    subst h0
    obtain ⟨hidx, hm1, hm2, hday, -⟩ := add_months_spec h
    have hy : e.year = d.year := by omega
    have hmo : e.month = d.month := by omega
    have hdy : e.day = d.day := by
      rw [hday, hy, hmo, if_neg (by omega)]
    cases e
    cases d
    simp_all
  · intro hneg h
    obtain ⟨hidx, hm1, hm2, -, -⟩ := add_months_spec h
    rw [dateLt_iff]
    omega

/-- Witness for C10 at start 2024-03-15, months 0. -/
theorem claim10_no_nonpositive_guard_witness :
    isValidDate 2024 3 15 = true ∧
    add_months ⟨2024, 3, 15⟩ 0 = some ⟨2024, 3, 15⟩ ∧
    (⟨2024, 3, 15⟩ : PyDate) = ⟨2024, 3, 15⟩ :=
  ⟨by decide, by decide,
    (claim10_no_nonpositive_guard ⟨2024, 3, 15⟩ 0 ⟨2024, 3, 15⟩ (by decide)).1
      rfl (by decide)⟩

/-- Counterexample to C10 as stated: the valid start 9999-12-15 with months 0
does not yield an end date equal to the start; the probe `date(10000, 1, 1)`
raises and the resolver fails. -/
theorem claim10_counterexample :
    isValidDate 9999 12 15 = true ∧
    compute_permanence_end "9999-12-15" "0" "" = none := by
  exact ⟨by decide, by decide⟩

/-! ### Theory of the stable insertion sort -/

theorem mem_insertSorted {le : α → α → Bool} {a x : α} {l : List α} :
    x ∈ insertSorted le a l ↔ x = a ∨ x ∈ l := by
  induction l with
  | nil => simp [insertSorted]
  | cons b bs ih =>
    unfold insertSorted
    by_cases h : le a b
    · rw [if_pos h]
      simp [List.mem_cons]
    · rw [if_neg h]
      simp only [List.mem_cons, ih]
      tauto

theorem perm_insertSorted (le : α → α → Bool) (a : α) :
    ∀ l : List α, insertSorted le a l ~ a :: l
  | [] => List.Perm.refl _
  | b :: bs => by
    unfold insertSorted
    by_cases h : le a b
    · rw [if_pos h]
    · rw [if_neg h]
      exact ((perm_insertSorted le a bs).cons b).trans (List.Perm.swap a b bs)

theorem perm_insertionSort (le : α → α → Bool) : ∀ l : List α, insertionSort le l ~ l
  | [] => List.Perm.refl _
  | a :: as => (perm_insertSorted le a _).trans ((perm_insertionSort le as).cons a)

theorem pairwise_insertSorted {le : α → α → Bool}
    (htrans : ∀ a b c, le a b = true → le b c = true → le a c = true)
    (htotal : ∀ a b, (le a b || le b a) = true)
    {a : α} {l : List α} (h : l.Pairwise (fun x y => le x y = true)) :
    (insertSorted le a l).Pairwise (fun x y => le x y = true) := by
  induction l with
  | nil => simp [insertSorted]
  | cons b bs ih =>
    rw [List.pairwise_cons] at h
    obtain ⟨hb, hbs⟩ := h
    unfold insertSorted
    by_cases hab : le a b
    · rw [if_pos hab]
      refine List.Pairwise.cons ?_ (List.Pairwise.cons hb hbs)
      intro y hy
      rcases List.mem_cons.mp hy with rfl | hy2
      · exact hab
      · exact htrans a b y hab (hb y hy2)
    · rw [if_neg hab]
      refine List.Pairwise.cons ?_ (ih hbs)
      intro y hy
      rcases mem_insertSorted.mp hy with hya | hy2
      · rw [hya]
        have hba := htotal a b
        have hf : le a b = false := by simpa using hab
        rw [hf] at hba
        simpa using hba
      · exact hb y hy2

theorem sorted_insertionSort {le : α → α → Bool}
    (htrans : ∀ a b c, le a b = true → le b c = true → le a c = true)
    (htotal : ∀ a b, (le a b || le b a) = true) :
    ∀ l : List α, (insertionSort le l).Pairwise (fun x y => le x y = true)
  | [] => List.Pairwise.nil
  | a :: as =>
    pairwise_insertSorted htrans htotal (sorted_insertionSort htrans htotal as)

theorem sublist_insertSorted (le : α → α → Bool) (a : α) :
    ∀ l : List α, l <+ insertSorted le a l
  | [] => List.nil_sublist _
  | b :: bs => by
    unfold insertSorted
    by_cases h : le a b
    · rw [if_pos h]
      exact List.sublist_cons_self _ _
    · rw [if_neg h]
      exact (sublist_insertSorted le a bs).cons₂ b

theorem pair_sublist_insertSorted {le : α → α → Bool} {a y : α}
    (hay : le a y = true) {l : List α} (hy : y ∈ l) :
    [a, y] <+ insertSorted le a l := by
  induction l with
  | nil => cases hy
  | cons b bs ih =>
    unfold insertSorted
    by_cases hab : le a b
    · rw [if_pos hab]
      exact List.Sublist.cons₂ a (List.singleton_sublist.mpr hy)
    · rw [if_neg hab]
      rcases List.mem_cons.mp hy with rfl | hy2
      · exact absurd hay hab
      · exact (ih hy2).cons b

/-- Stability of the insertion sort: any pair already correctly ordered by
`le` keeps its relative order, in particular ties stay in input order. -/
theorem pair_sublist_insertionSort {le : α → α → Bool} {x y : α}
    (hxy : le x y = true) {l : List α} (h : [x, y] <+ l) :
    [x, y] <+ insertionSort le l := by
  induction l with
  | nil => simp at h
  | cons a as ih =>
    unfold insertionSort
    cases h with
    | cons _ h2 =>
      exact (ih h2).trans (sublist_insertSorted le a _)
    | cons₂ _ h2 =>
      have hy : y ∈ insertionSort le as :=
        (perm_insertionSort le as).mem_iff.mpr (List.singleton_sublist.mp h2)
      exact pair_sublist_insertSorted hxy hy

theorem mem_sqlCalendarRows {r : ClientRow} {clients : List ClientRow} :
    r ∈ sqlCalendarRows clients ↔ r ∈ clients ∧ sqlWhereHasEnd r = true := by
  unfold sqlCalendarRows
  rw [(perm_insertionSort rowLe _).mem_iff, List.mem_filter]

/-! ### Lemmas about the calendar query -/

theorem parse_nonempty {s : String} {d : PyDate} (h : parse_yyyy_mm_dd s = some d) :
    (s == "") = false := by
  rcases hs : (s == "") with _ | _
  · rfl
  · have he : s = "" := by simpa using hs
    rw [he, parse_empty] at h
    exact Option.noConfusion h

/-- A row whose effective end parses necessarily passes the WHERE clause of
the calendar query. -/
theorem sqlWhere_of_parse {r : ClientRow} {d : PyDate}
    (h : parse_opt (sqlEffectiveEnd r) = some d) : sqlWhereHasEnd r = true := by
  rcases r with ⟨i, ped, pe⟩
  rcases ped with _ | t
  · rcases pe with _ | u
    · exact Option.noConfusion h
    · have hu := parse_nonempty (s := u) (d := d)
        (by simpa [sqlEffectiveEnd, parse_opt] using h)
      simp [sqlWhereHasEnd, sqlNonEmpty, hu]
  · by_cases ht : (t == "") = true
    · have h2 : parse_opt pe = some d := by
        simpa [sqlEffectiveEnd, ht] using h
      rcases pe with _ | u
      · rw [show parse_opt none = none from rfl] at h2
        exact Option.noConfusion h2
      · have hu := parse_nonempty (s := u) (d := d) (by simpa [parse_opt] using h2)
        simp [sqlWhereHasEnd, sqlNonEmpty, hu]
    · have ht2 : (t == "") = false := by simpa using ht
      simp [sqlWhereHasEnd, sqlNonEmpty, ht2]

/-- The loop body keeps exactly the parseable rows inside the window, paired
with the row itself and its day distance from today. -/
theorem calendarEntry_eq_some {today limit : PyDate} {r r2 : ClientRow} {n : Int}
    (h : calendarEntry today limit r = some (r2, n)) :
    r2 = r ∧ ∃ d, parse_opt (sqlEffectiveEnd r) = some d ∧
      dateLe today d = true ∧ dateLe d limit = true ∧ n = dateSubDays d today := by
  rcases hp : parse_opt (sqlEffectiveEnd r) with _ | d
  · have hnone : calendarEntry today limit r = none := by
      unfold calendarEntry
      rw [hp]
    rw [hnone] at h
    exact Option.noConfusion h
  · have hkey : calendarEntry today limit r =
        (if (dateLe today d && dateLe d limit) = true
         then some (r, dateSubDays d today) else none) := by
      unfold calendarEntry
      rw [hp]
    rw [hkey] at h
    by_cases hcond : (dateLe today d && dateLe d limit) = true
    · rw [if_pos hcond] at h
      simp only [Option.some.injEq, Prod.mk.injEq] at h
      obtain ⟨h1, h2⟩ := h
      simp only [Bool.and_eq_true] at hcond
      exact ⟨h1.symm, d, rfl, hcond.1, hcond.2, h2.symm⟩
    · rw [if_neg hcond] at h
      exact Option.noConfusion h

theorem calendarEntry_some_of {today limit d : PyDate} {r : ClientRow}
    (hp : parse_opt (sqlEffectiveEnd r) = some d)
    (h1 : dateLe today d = true) (h2 : dateLe d limit = true) :
    calendarEntry today limit r = some (r, dateSubDays d today) := by
  have hkey : calendarEntry today limit r =
      (if (dateLe today d && dateLe d limit) = true
       then some (r, dateSubDays d today) else none) := by
    unfold calendarEntry
    rw [hp]
  rw [hkey, if_pos (by simp [h1, h2])]

/-! ### The SQLite text order versus the date order -/

theorem memLe_refl : ∀ l : List Char, memLe l l = true
  | [] => rfl
  | a :: as => by
    unfold memLe
    rw [if_neg (Nat.lt_irrefl _), if_pos rfl]
    exact memLe_refl as

theorem memLe_trans : ∀ l1 l2 l3 : List Char,
    memLe l1 l2 = true → memLe l2 l3 = true → memLe l1 l3 = true
  | [], _, _, _, _ => rfl
  | _ :: _, [], _, h, _ => by simp [memLe] at h
  | _ :: _, _ :: _, [], _, h => by simp [memLe] at h
  | a :: as, b :: bs, c :: cs, h1, h2 => by
    simp only [memLe] at h1 h2 ⊢
    split_ifs at h1 h2 ⊢ <;>
      first
        | rfl
        | exact memLe_trans as bs cs h1 h2
        | omega

theorem memLe_total : ∀ l1 l2 : List Char, (memLe l1 l2 || memLe l2 l1) = true
  | [], l2 => by simp [memLe]
  | a :: as, [] => by simp [memLe]
  | a :: as, b :: bs => by
    unfold memLe
    rcases Nat.lt_trichotomy a.toNat b.toNat with h | h | h
    · rw [if_pos h]
      simp
    · rw [if_neg (by omega), if_pos h, if_neg (by omega), if_pos h.symm]
      exact memLe_total as bs
    · rw [if_neg (by omega), if_neg (by omega), if_pos h]
      simp

theorem memLe_cons_same (c : Char) (r1 r2 : List Char) :
    memLe (c :: r1) (c :: r2) = memLe r1 r2 := by
  simp [memLe]

theorem memLe_pad2 {a b : Nat} (ha : a ≤ 99) (hb : b ≤ 99) (r1 r2 : List Char) :
    memLe (pad2 a ++ r1) (pad2 b ++ r2) = true ↔
      (a < b ∨ (a = b ∧ memLe r1 r2 = true)) := by
  have e1 := digChar_toNat (k := a / 10) (by omega)
  have e2 := digChar_toNat (k := a % 10) (by omega)
  have e3 := digChar_toNat (k := b / 10) (by omega)
  have e4 := digChar_toNat (k := b % 10) (by omega)
  unfold pad2
  simp only [List.cons_append, List.nil_append]
  simp only [memLe]
  rw [e1, e2, e3, e4]
  split_ifs with h1 h2 h3 h4
  · exact iff_of_true rfl (Or.inl (by omega))
  · exact iff_of_true rfl (Or.inl (by omega))
  · constructor
    · intro hm
      exact Or.inr ⟨by omega, hm⟩
    · rintro (hlt | ⟨-, hm⟩)
      · exact absurd hlt (by omega)
      · exact hm
  · refine iff_of_false (by simp) ?_
    rintro (hlt | ⟨heq, -⟩) <;> omega
  · refine iff_of_false (by simp) ?_
    rintro (hlt | ⟨heq, -⟩) <;> omega

theorem pad4_eq_pad2 (a : Nat) : pad4 a = pad2 (a / 100) ++ pad2 (a % 100) := by
  unfold pad4 pad2
  have e1 : a / 100 / 10 = a / 1000 := by omega
  have e3 : a % 100 / 10 = a / 10 % 10 := by omega
  have e4 : a % 100 % 10 = a % 10 := by omega
  rw [e1, e3, e4]
  rfl

theorem memLe_pad4 {a b : Nat} (ha : a ≤ 9999) (hb : b ≤ 9999) (r1 r2 : List Char) :
    memLe (pad4 a ++ r1) (pad4 b ++ r2) = true ↔
      (a < b ∨ (a = b ∧ memLe r1 r2 = true)) := by
  rw [pad4_eq_pad2, pad4_eq_pad2, List.append_assoc, List.append_assoc,
    memLe_pad2 (by omega) (by omega)]
  constructor
  · rintro (h | ⟨h, h2⟩)
    · left
      omega
    · rw [memLe_pad2 (by omega) (by omega)] at h2
      rcases h2 with h2 | ⟨h2, h3⟩
      · left
        omega
      · right
        exact ⟨by omega, h3⟩
  · rintro (h | ⟨h, h2⟩)
    · by_cases hq : a / 100 < b / 100
      · exact Or.inl hq
      · right
        refine ⟨by omega, ?_⟩
        rw [memLe_pad2 (by omega) (by omega)]
        left
        omega
    · right
      refine ⟨by omega, ?_⟩
      rw [memLe_pad2 (by omega) (by omega)]
      right
      exact ⟨by omega, h2⟩

/-- On ISO-rendered valid dates, the SQLite text order agrees with the Python
date order. -/
theorem memLe_isoChars {d1 d2 : PyDate}
    (h1 : isValidDate d1.year d1.month d1.day = true)
    (h2 : isValidDate d2.year d2.month d2.day = true) :
    (memLe (isoChars d1) (isoChars d2) = true ↔ dateLe d1 d2 = true) := by
  obtain ⟨a1, a2, a3, a4, a5, a6⟩ := isValidDate_bounds h1
  obtain ⟨b1, b2, b3, b4, b5, b6⟩ := isValidDate_bounds h2
  have ha31 : d1.day ≤ 31 := le_trans a6 (daysInMonth_le_31 _ _)
  have hb31 : d2.day ≤ 31 := le_trans b6 (daysInMonth_le_31 _ _)
  have hday : memLe (pad2 d1.day) (pad2 d2.day) = true ↔ d1.day ≤ d2.day := by
    rw [show pad2 d1.day = pad2 d1.day ++ [] from (List.append_nil _).symm,
      show pad2 d2.day = pad2 d2.day ++ [] from (List.append_nil _).symm,
      memLe_pad2 (by omega) (by omega)]
    constructor
    · rintro (h | ⟨h, -⟩) <;> omega
    · intro h
      rcases Nat.lt_or_ge d1.day d2.day with h3 | h3
      · exact Or.inl h3
      · exact Or.inr ⟨by omega, rfl⟩
  unfold isoChars
  rw [memLe_pad4 a2 b2, dateLe_iff]
  constructor
  · rintro (h | ⟨h, hrest⟩)
    · exact Or.inl h
    · right
      refine ⟨h, ?_⟩
      rw [memLe_cons_same, memLe_pad2 (by omega) (by omega)] at hrest
      rcases hrest with hm | ⟨hm, hrest2⟩
      · exact Or.inl hm
      · right
        rw [memLe_cons_same] at hrest2
        exact ⟨hm, hday.mp hrest2⟩
  · rintro (h | ⟨h, hrest⟩)
    · exact Or.inl h
    · right
      refine ⟨h, ?_⟩
      rw [memLe_cons_same, memLe_pad2 (by omega) (by omega)]
      rcases hrest with hm | ⟨hm, hd2⟩
      · exact Or.inl hm
      · right
        rw [memLe_cons_same]
        exact ⟨hm, hday.mpr hd2⟩

theorem rowLe_trans (a b c : ClientRow) (h1 : rowLe a b = true) (h2 : rowLe b c = true) :
    rowLe a c = true :=
  memLe_trans _ _ _ h1 h2

theorem rowLe_total (a b : ClientRow) : (rowLe a b || rowLe b a) = true :=
  memLe_total _ _

theorem parse_opt_some {o : Option String} {d : PyDate} (h : parse_opt o = some d) :
    ∃ s, o = some s ∧ s ≠ "" ∧ parse_yyyy_mm_dd s = some d := by
  rcases o with _ | s
  · rw [show parse_opt none = none from rfl] at h
    exact Option.noConfusion h
  · have hp : parse_yyyy_mm_dd s = some d := h
    have hne : s ≠ "" := by simpa using parse_nonempty hp
    exact ⟨s, rfl, hne, hp⟩

/-! ### Claim theorems: the Expiration Query window -/

/-- Claim C4 (confirmed): the upcoming list contains exactly the clients
whose effective end date parses and lies within `[today, limit]` where
`limit = today + window`; each entry carries that client's day distance; a
client with no resolvable end date never appears; and a client expired 10
days before today is excluded even though its days-remaining (−10) is
computable by `days_until`. -/
theorem claim4_window_filter (clients : List ClientRow) (days_str : String)
    (today limit : PyDate) (out : List (ClientRow × Int))
    (hlim : dateAddDays today (calendar_days_int days_str) = some limit)
    (hout : calendar_view_upcoming clients days_str today = some out) :
    (∀ r n, (r, n) ∈ out → r ∈ clients ∧ ∃ d, parse_opt (sqlEffectiveEnd r) = some d ∧
      dateLe today d = true ∧ dateLe d limit = true ∧ n = dateSubDays d today) ∧
    (∀ r, r ∈ clients →
      ((∃ n, (r, n) ∈ out) ↔ ∃ d, parse_opt (sqlEffectiveEnd r) = some d ∧
        dateLe today d = true ∧ dateLe d limit = true)) ∧
    calendar_view_upcoming [⟨1, some "2023-12-22", none⟩] "30" ⟨2024, 1, 1⟩ = some [] ∧
    days_until "2023-12-22" ⟨2024, 1, 1⟩ = some (-10) := by
  have hout2 : out = (sqlCalendarRows clients).filterMap (calendarEntry today limit) := by
    unfold calendar_view_upcoming at hout
    rw [hlim] at hout
    simpa using hout.symm
  subst hout2
  refine ⟨?_, ?_, by decide, by decide⟩
  · intro r n hmem
    obtain ⟨row, hrow, hentry⟩ := List.mem_filterMap.mp hmem
    obtain ⟨hr2, d, hp, hc1, hc2, hn⟩ := calendarEntry_eq_some hentry
    subst hr2
    exact ⟨(mem_sqlCalendarRows.mp hrow).1, d, hp, hc1, hc2, hn⟩
  · intro r hrc
    constructor
    · rintro ⟨n, hmem⟩
      obtain ⟨row, hrow, hentry⟩ := List.mem_filterMap.mp hmem
      obtain ⟨hr2, d, hp, hc1, hc2, -⟩ := calendarEntry_eq_some hentry
      subst hr2
      exact ⟨d, hp, hc1, hc2⟩
    · rintro ⟨d, hp, hc1, hc2⟩
      refine ⟨dateSubDays d today, List.mem_filterMap.mpr ⟨r, ?_, calendarEntry_some_of hp hc1 hc2⟩⟩
      exact mem_sqlCalendarRows.mpr ⟨hrc, sqlWhere_of_parse hp⟩

/-- Witness for C4: with window 30 from 2024-01-01, the client ending
2024-01-05 is listed (4 days remaining) and appears in the output. -/
theorem claim4_window_filter_witness :
    (∃ n, ((⟨2, none, some "2024-01-05"⟩ : ClientRow), n) ∈
      [((⟨2, none, some "2024-01-05"⟩ : ClientRow), (4 : Int)),
       (⟨1, some "2024-01-10", none⟩, 9)]) := by
  have h := (claim4_window_filter
    [⟨1, some "2024-01-10", none⟩, ⟨2, none, some "2024-01-05"⟩] "30"
    ⟨2024, 1, 1⟩ ⟨2024, 1, 31⟩
    [(⟨2, none, some "2024-01-05"⟩, 4), (⟨1, some "2024-01-10", none⟩, 9)]
    (by decide) (by decide)).2.1 ⟨2, none, some "2024-01-05"⟩ (by decide)
  exact h.mpr ⟨⟨2024, 1, 5⟩, by decide, by decide, by decide⟩

/-- Claim C5 (corrected): when every stored effective end date is
ISO-normalised text, the upcoming list is ascending by end date (on ISO text
the byte sort used by `ORDER BY` agrees with the date order), and any two
clients with identical end-date text appear in their original insertion
order (stable ties, as fixed by the model for the tie order SQLite leaves
unspecified); the spec's two-client example holds. For stored text in the
other accepted date formats the text sort can disagree with the date order;
see the counterexample. -/
theorem claim5_ascending_for_iso_text (clients : List ClientRow) (days_str : String)
    (today limit : PyDate) (out : List (ClientRow × Int))
    (hlim : dateAddDays today (calendar_days_int days_str) = some limit)
    (hout : calendar_view_upcoming clients days_str today = some out)
    (hiso : ∀ r, r ∈ clients → ∀ s, sqlEffectiveEnd r = some s → s ≠ "" →
      ∃ d, isValidDate d.year d.month d.day = true ∧ s = isoformat d) :
    (out.Pairwise fun p q => ∀ dp dq, parse_opt (sqlEffectiveEnd p.1) = some dp →
      parse_opt (sqlEffectiveEnd q.1) = some dq → dateLe dp dq = true) ∧
    (∀ r1 r2 n1 n2, List.Sublist [r1, r2] (clients.filter sqlWhereHasEnd) →
      sqlEffectiveEnd r1 = sqlEffectiveEnd r2 →
      calendarEntry today limit r1 = some (r1, n1) →
      calendarEntry today limit r2 = some (r2, n2) →
      List.Sublist [(r1, n1), (r2, n2)] out) ∧
    calendar_view_upcoming
      [⟨1, some "2024-01-10", none⟩, ⟨2, some "2024-01-05", none⟩] "30" ⟨2024, 1, 1⟩ =
      some [(⟨2, some "2024-01-05", none⟩, 4), (⟨1, some "2024-01-10", none⟩, 9)] := by
  have hout2 : out = (sqlCalendarRows clients).filterMap (calendarEntry today limit) := by
    unfold calendar_view_upcoming at hout
    rw [hlim] at hout
    simpa using hout.symm
  subst hout2
  refine ⟨?_, ?_, by decide⟩
  · rw [List.pairwise_filterMap]
    have hsorted : (sqlCalendarRows clients).Pairwise (fun x y => rowLe x y = true) := by
      unfold sqlCalendarRows
      exact sorted_insertionSort rowLe_trans rowLe_total _
    refine hsorted.imp_of_mem ?_
    intro a b hma hmb hle p hp q hq
    rw [Option.mem_def] at hp hq
    obtain ⟨pr, pn⟩ := p
    obtain ⟨qr, qn⟩ := q
    obtain ⟨hpa, d1, -, -, -, -⟩ := calendarEntry_eq_some hp
    obtain ⟨hqb, d2, -, -, -, -⟩ := calendarEntry_eq_some hq
    subst hpa
    subst hqb
    intro dp dq hdp hdq
    obtain ⟨s1, hs1, hne1, hps1⟩ := parse_opt_some hdp
    obtain ⟨s2, hs2, hne2, hps2⟩ := parse_opt_some hdq
    have hs1n : sqlEffectiveEnd pr = some s1 := hs1
    have hs2n : sqlEffectiveEnd qr = some s2 := hs2
    obtain ⟨e1, hv1, hiso1⟩ := hiso pr (mem_sqlCalendarRows.mp hma).1 s1 hs1n hne1
    obtain ⟨e2, hv2, hiso2⟩ := hiso qr (mem_sqlCalendarRows.mp hmb).1 s2 hs2n hne2
    have hde1 : dp = e1 := by
      rw [hiso1, parse_isoformat hv1] at hps1
      injection hps1 with h
      exact h.symm
    have hde2 : dq = e2 := by
      rw [hiso2, parse_isoformat hv2] at hps2
      injection hps2 with h
      exact h.symm
    have hk1 : rowKey pr = isoChars e1 := by
      unfold rowKey
      rw [hs1n, hiso1]
      rfl
    have hk2 : rowKey qr = isoChars e2 := by
      unfold rowKey
      rw [hs2n, hiso2]
      rfl
    unfold rowLe at hle
    rw [hk1, hk2] at hle
    rw [hde1, hde2]
    exact (memLe_isoChars hv1 hv2).mp hle
  · intro r1 r2 n1 n2 hsub heq he1 he2
    have hle : rowLe r1 r2 = true := by
      unfold rowLe rowKey
      rw [heq]
      exact memLe_refl _
    have hpair : List.Sublist [r1, r2] (sqlCalendarRows clients) := by
      unfold sqlCalendarRows
      exact pair_sublist_insertionSort hle hsub
    have hmap := hpair.filterMap (calendarEntry today limit)
    rw [List.filterMap_cons_some he1, List.filterMap_cons_some he2] at hmap
    simpa using hmap

/-- Witness for C5: the spec's two-client instance, with every hypothesis
established at concrete values. -/
theorem claim5_ascending_for_iso_text_witness :
    ([((⟨2, some "2024-01-05", none⟩ : ClientRow), (4 : Int)),
      ((⟨1, some "2024-01-10", none⟩ : ClientRow), (9 : Int))].Pairwise fun p q =>
        ∀ dp dq, parse_opt (sqlEffectiveEnd p.1) = some dp →
          parse_opt (sqlEffectiveEnd q.1) = some dq → dateLe dp dq = true) := by
  refine (claim5_ascending_for_iso_text
    [⟨1, some "2024-01-10", none⟩, ⟨2, some "2024-01-05", none⟩] "30"
    ⟨2024, 1, 1⟩ ⟨2024, 1, 31⟩
    [(⟨2, some "2024-01-05", none⟩, 4), (⟨1, some "2024-01-10", none⟩, 9)]
    (by decide) (by decide) ?_).1
  intro r hr s hs hne
  rcases List.mem_cons.mp hr with h1 | hr2
  · refine ⟨⟨2024, 1, 10⟩, by decide, ?_⟩
    rw [h1] at hs
    have hs2 : some "2024-01-10" = some s := hs
    injection hs2 with hs3
    rw [← hs3]
    decide
  · rcases List.mem_cons.mp hr2 with h1 | h0
    · refine ⟨⟨2024, 1, 5⟩, by decide, ?_⟩
      rw [h1] at hs
      have hs2 : some "2024-01-05" = some s := hs
      injection hs2 with hs3
      rw [← hs3]
      decide
    · cases h0

/-- Counterexample to C5 as stated: with a legacy-format stored end date the
query's text sort is not ascending by date: the client expiring 2024-03-15
(stored as 15/03/2024) is listed before the client expiring 2024-01-05. -/
theorem claim5_counterexample :
    calendar_view_upcoming
      [⟨1, some "15/03/2024", none⟩, ⟨2, some "2024-01-05", none⟩] "365" ⟨2024, 1, 1⟩ =
      some [(⟨1, some "15/03/2024", none⟩, 74), (⟨2, some "2024-01-05", none⟩, 4)] ∧
    parse_opt (sqlEffectiveEnd ⟨1, some "15/03/2024", none⟩) = some ⟨2024, 3, 15⟩ ∧
    parse_opt (sqlEffectiveEnd ⟨2, some "2024-01-05", none⟩) = some ⟨2024, 1, 5⟩ ∧
    dateLt ⟨2024, 1, 5⟩ ⟨2024, 3, 15⟩ = true := by
  exact ⟨by decide, by decide, by decide, by decide⟩

/-! ### Claim theorems: reconciliation and the column invariant -/

/-- Claim C3 (confirmed): the Python reader equals the SQL expression
`COALESCE(NULLIF(permanence_end_date, ''), permanence_end)` used by the
calendar and API queries, up to the reader's final strip/blank-to-absent
normalisation, so every reader prefers the current column and falls back to
the legacy one exactly when the current one is NULL or empty; the legacy
value never overrides a nonempty current value; and the record with legacy
end 2024-06-01 and blank current end resolves to 2024-06-01. -/
theorem claim3_reconciliation (c : ClientRow) (i : Nat) (s : String)
    (pe pe2 : Option String) (hs : s ≠ "") :
    get_end_date_from_client_row c = normBlank (sqlEffectiveEnd c) ∧
    get_end_date_from_client_row ⟨i, some s, pe⟩ =
      get_end_date_from_client_row ⟨i, some s, pe2⟩ ∧
    get_end_date_from_client_row ⟨0, some "", some "2024-06-01"⟩ = some "2024-06-01" := by
  refine ⟨?_, ?_, by decide⟩
  · rcases c with ⟨j, ped, pe0⟩
    rcases ped with _ | t
    · rfl
    · by_cases ht : t = ""
      · subst ht
        rfl
      · have hb : (t == "") = false := by simpa using ht
        simp [get_end_date_from_client_row, normBlank, sqlEffectiveEnd, optStrTruthy, hb]
  · have hb : (s == "") = false := by simpa using hs
    simp [get_end_date_from_client_row, optStrTruthy, hb]

/-- Witness for C3: a record with both columns populated and distinct. -/
theorem claim3_reconciliation_witness :
    ("2024-07-01" : String) ≠ "" ∧
    get_end_date_from_client_row ⟨7, some "2024-07-01", some "1999-01-01"⟩ =
      normBlank (sqlEffectiveEnd ⟨7, some "2024-07-01", some "1999-01-01"⟩) ∧
    get_end_date_from_client_row ⟨7, some "2024-07-01", some "1999-01-01"⟩ =
      get_end_date_from_client_row ⟨7, some "2024-07-01", none⟩ ∧
    get_end_date_from_client_row ⟨0, some "", some "2024-06-01"⟩ = some "2024-06-01" := by
  refine ⟨by decide, ?_⟩
  exact (claim3_reconciliation ⟨7, some "2024-07-01", some "1999-01-01"⟩ 7 "2024-07-01"
    (some "1999-01-01") none (by decide)).imp id (fun h => h)

/-- A row after both backfill steps has its two end columns in sync. -/
theorem backfill_row_synced (r : ClientRow) : endSynced (backfillStep2 (backfillStep1 r)) := by
  rcases r with ⟨i, ped, pe⟩
  unfold endSynced backfillStep1 backfillStep2 sqlBlank
  rcases hb1 : sqlNonEmpty ped with _ | _ <;> rcases hb2 : sqlNonEmpty pe with _ | _ <;>
    simp [hb1, hb2]

/-- Claim C8 (confirmed): after the startup backfill the two end columns are
never in a state with exactly one of them blank, and both the create and the
update handler preserve this invariant (they write the same resolver output
into both columns). -/
theorem claim8_end_columns_synced :
    (∀ db r, r ∈ init_db_backfill db → endSynced r) ∧
    (∀ db i f db2 r, (∀ s, s ∈ db → endSynced s) → new_client db i f = some db2 →
      r ∈ db2 → endSynced r) ∧
    (∀ db cid f db2 r, (∀ s, s ∈ db → endSynced s) → update_client db cid f = some db2 →
      r ∈ db2 → endSynced r) := by
  refine ⟨?_, ?_, ?_⟩
  · intro db r hr
    simp only [init_db_backfill, List.mem_map] at hr
    obtain ⟨s0, ⟨s1, -, rfl⟩, rfl⟩ := hr
    exact backfill_row_synced s1
  · intro db i f db2 r hdb hnc hr
    unfold new_client at hnc
    rcases hcomp : compute_permanence_endO (form_start f) f.permanence_months (form_end f)
      with _ | trip
    · rw [hcomp] at hnc
      simp at hnc
    · rcases trip with ⟨s0, m0, p_end⟩
      rw [hcomp] at hnc
      simp only [Option.some.injEq] at hnc
      subst hnc
      rcases List.mem_append.mp hr with hin | hin
      · exact hdb r hin
      · simp only [List.mem_singleton] at hin
        subst hin
        rfl
  · intro db cid f db2 r hdb huc hr
    unfold update_client at huc
    rcases hcomp : compute_permanence_endO (form_start f) f.permanence_months (form_end f)
      with _ | trip
    · rw [hcomp] at huc
      simp at huc
    · rcases trip with ⟨s0, m0, p_end⟩
      rw [hcomp] at huc
      simp only [Option.some.injEq] at huc
      subst huc
      rcases List.mem_map.mp hr with ⟨s1, hs1, rfl⟩
      by_cases hid : (s1.id == cid) = true
      · rw [if_pos hid]
        rfl
      · rw [if_neg hid]
        exact hdb s1 hs1

/-- Witness for C8: the backfill fills the blank current column from the
legacy one, and an update on a synced database stays synced. -/
theorem claim8_end_columns_synced_witness :
    (⟨1, some "2024-06-01", some "2024-06-01"⟩ : ClientRow) ∈
      init_db_backfill [⟨1, none, some "2024-06-01"⟩] ∧
    endSynced ⟨1, some "2024-06-01", some "2024-06-01"⟩ :=
  ⟨by decide,
    claim8_end_columns_synced.1 [⟨1, none, some "2024-06-01"⟩]
      ⟨1, some "2024-06-01", some "2024-06-01"⟩ (by decide)⟩

end CRM
